import Mathlib

/-!
Verification development for the FigJam colour-totals OCR pipeline of the
ValeCodebase repository.  The pipeline exists in three near-duplicate
variants; each is embedded shallowly:

* `figjam_colour_totals_gui.py`  — namespace-free defs prefixed `gui` /
  `Gui`, notably `extract_numbers_from_region`, `process_image_with_ocr`
  and `Gui.format_color_results`;
* `figjam_colour_totals_fixed.py` — defs prefixed `fixed` / `Fixed`,
  notably `extract_number_from_region`, `get_color_at_location`,
  `process_figjam_image`, `Fixed.format_results`;
* `figjam_colour_totals_gui_v2.py` — defs prefixed `v2` / `V2`, notably
  the hue wrap-around pixel matcher and `V2.format_color_results`.

External library calls (Tesseract OCR, OpenCV image transforms) are
modelled as oracle parameters: an OCR oracle maps a configuration
combination to `Except String String` (the raised error or the recognised
text), and colour regions carry the pixel data the source samples.
Floating-point threshold comparisons of the source (`0.2 < w/h < 8`,
`count > size * 0.1`) are modelled over `ℚ` / cross-multiplied naturals;
for the integer-valued operands appearing here the comparisons agree
with the Python float semantics.
-/

namespace FigJam

/-- Numeric value of a digit string, as Python `int` computes it on a
maximal digit run (`re.findall` output). -/
def parseDigits (ds : List Char) : Nat :=
  ds.foldl (fun acc c => 10 * acc + (c.toNat - 48)) 0

/-- Accumulating scanner behind `digitRuns`: splits a character list into
its maximal runs of ASCII digits, mirroring Python's
`re.findall(r"\d+", text)`. -/
def digitRunsAux : List Char → List Char → List (List Char)
  | [], acc => if acc.isEmpty then [] else [acc.reverse]
  | c :: cs, acc =>
    if c.isDigit then digitRunsAux cs (c :: acc)
    else if acc.isEmpty then digitRunsAux cs []
    else acc.reverse :: digitRunsAux cs []

/-- Maximal digit runs of a character list. -/
def digitRuns (s : List Char) : List (List Char) := digitRunsAux s []

/-- All integers parsed from the OCR text, in order of occurrence:
`[int(m) for m in re.findall(r"\d+", text)]`. -/
def findAllNums (s : String) : List Nat := (digitRuns s.data).map parseDigits

/-- Python `str.strip()` on a character list: drop whitespace from both
ends. -/
def pyStrip (l : List Char) : List Char :=
  ((l.dropWhile Char.isWhitespace).reverse.dropWhile Char.isWhitespace).reverse

/-- Python `str.strip()` on a string. -/
def stripString (s : String) : String := ⟨pyStrip s.data⟩

/-- First `some` result of `f` along a list — the Python pattern of a
`for` loop that `return`s on the first hit. -/
def firstMatch (f : α → Option β) : List α → Option β
  | [] => none
  | x :: xs =>
    match f x with
    | some b => some b
    | none => firstMatch f xs

/-- Loop state of the duplicate-removal pass of
`extract_numbers_from_region` (gui variant, lines 248–255): `seen` is the
set of already-emitted values; a value is appended only when unseen. -/
def dedupFirstAux (seen : List Nat) : List Nat → List Nat
  | [] => []
  | x :: xs =>
    if x ∈ seen then dedupFirstAux seen xs
    else x :: dedupFirstAux (x :: seen) xs

/-- Remove duplicates keeping the first occurrence of each value. -/
def dedupFirst (l : List Nat) : List Nat := dedupFirstAux [] l

/-- Rotation angles tried by the gui variant (`OCR_CONFIG`). -/
def rotationAngles : List Nat := [0, 90, 180, 270]

/-- Preprocessing modes tried by the gui variant (`OCR_CONFIG`). -/
def preprocessingModes : List String := ["standard", "inverted", "enhanced"]

/-- Tesseract page-segmentation modes tried by the gui variant. -/
def psmModes : List Nat := [6, 11, 12, 13]

/-- One OCR attempt of the gui variant for a (rotation, preprocessing,
psm) combination.  The Tesseract call is the oracle `ocr`; a raised
exception (`Except.error`) makes the combination contribute nothing
(`except Exception: continue`), otherwise every digit run of the returned
text is parsed and appended. -/
def comboCandidates (ocr : Nat → String → Nat → Except String String)
    (a : Nat) (m : String) (p : Nat) : List Nat :=
  match ocr a m p with
  | .ok text => findAllNums text
  | .error _ => []

/-- Candidates accumulated by the triple loop of
`extract_numbers_from_region` (gui variant) before duplicate removal, in
append order: rotation angle outermost, then preprocessing mode, then
psm mode. -/
def gui_rawCandidates (ocr : Nat → String → Nat → Except String String) : List Nat :=
  rotationAngles.flatMap fun a =>
    preprocessingModes.flatMap fun m =>
      psmModes.flatMap fun p => comboCandidates ocr a m p

/-- Embedding of `extract_numbers_from_region` (gui variant, lines
205–256): collect every parsed integer over all 48 combinations, then
remove duplicates preserving first-seen order.  The range filter
`10 <= num_val <= 9999` present in other variants is commented out in
this source, so no range filtering happens here. -/
def extract_numbers_from_region
    (ocr : Nat → String → Nat → Except String String) : List Nat :=
  dedupFirst (gui_rawCandidates ocr)

/-- Preprocessing methods of the fixed variant: OTSU, inverted OTSU,
adaptive, inverted adaptive — indexed 0 to 3. -/
def fixedMethods : List Nat := [0, 1, 2, 3]

/-- Acceptance test of the fixed variant for one digit run: 2–4 digits
long and numerically between 10 and 9999. -/
def plausibleRun (r : List Char) : Option Nat :=
  if 2 ≤ r.length ∧ r.length ≤ 4 then
    let num := parseDigits r
    if 10 ≤ num ∧ num ≤ 9999 then some num else none
  else none

/-- Embedding of `extract_number_from_region` (fixed variant, lines
77–129): try the four preprocessing methods in order; for the first one
whose OCR succeeds and whose text contains a plausible digit run,
return that run's value immediately (`return num`); a raised OCR error
skips to the next method (`except: continue`); `none` when every method
fails or yields no plausible run. -/
def extract_number_from_region (ocr : Nat → Except String String) : Option Nat :=
  firstMatch
    (fun i =>
      match ocr i with
      | .ok text => firstMatch plausibleRun (digitRuns (stripString text).data)
      | .error _ => none)
    fixedMethods

/-- A pixel in OpenCV HSV representation (hue 0–180, saturation and
value 0–255). -/
structure HSV where
  h : Nat
  s : Nat
  v : Nat
deriving DecidableEq, Repr

/-- Pixel-level meaning of `cv2.inRange(img, lower, upper)`: every
channel lies inclusively between the corresponding bounds. -/
def inRangePix (lo hi p : HSV) : Bool :=
  decide (lo.h ≤ p.h ∧ p.h ≤ hi.h ∧ lo.s ≤ p.s ∧ p.s ≤ hi.s ∧ lo.v ≤ p.v ∧ p.v ≤ hi.v)

/-- Pixel-level colour match of `get_highlight_color_at_point` (v2
variant, lines 142–152): when the lower hue bound exceeds the upper one
the mask is the union of the two sub-ranges `[0, upper.h]` and
`[lower.h, 180]` (saturation and value bounds unchanged); otherwise a
single inclusive range. -/
def v2_pixelMatch (lo hi p : HSV) : Bool :=
  if hi.h < lo.h then
    inRangePix ⟨0, lo.s, lo.v⟩ ⟨hi.h, hi.s, hi.v⟩ p ||
      inRangePix ⟨lo.h, lo.s, lo.v⟩ ⟨180, hi.s, hi.v⟩ p
  else
    inRangePix lo hi p

/-- Matching-pixel count of one colour inside the sampled region of the
fixed variant (`get_color_at_location`, lines 146–148): a single
`cv2.inRange` over the sampled region followed by `countNonZero` — no
hue wrap-around handling exists in this variant. -/
def fixed_colorCount (lo hi : HSV) (pixels : List HSV) : Nat :=
  pixels.countP (fun p => inRangePix lo hi p)

/-- HSV palette of the fixed variant (`FIGJAM_COLORS_HSV`). -/
def FIGJAM_COLORS_HSV : List (String × HSV × HSV) :=
  [("Green", ⟨40, 40, 40⟩, ⟨80, 255, 255⟩),
   ("Yellow", ⟨20, 40, 40⟩, ⟨40, 255, 255⟩),
   ("Pink", ⟨140, 40, 40⟩, ⟨180, 255, 255⟩),
   ("Purple", ⟨100, 40, 40⟩, ⟨140, 255, 255⟩),
   ("Cyan", ⟨80, 40, 40⟩, ⟨100, 255, 255⟩),
   ("Orange", ⟨10, 40, 40⟩, ⟨20, 255, 255⟩)]

/-- Embedding of `get_color_at_location` (fixed variant, lines
131–154): over the sampled region, pick the colour with the highest
matching-pixel count among those whose count exceeds 10 % of the numpy
array size (`region.size` counts all three channels, hence
`3 * pixels.length`; the float product `size * 0.1` agrees with the
rational comparison `10 * count > 3 * length` on these integer
magnitudes). -/
def get_color_at_location (pixels : List HSV) : Option String :=
  (FIGJAM_COLORS_HSV.foldl
    (fun (best : Option String × Nat) entry =>
      let count := fixed_colorCount entry.2.1 entry.2.2 pixels
      if count > best.2 ∧ 10 * count > 3 * pixels.length then (some entry.1, count)
      else best)
    (none, 0)).1

/-- Bounding-box gate of `process_image_with_ocr` (gui variant, lines
284–286): a contour is kept unless its width or height is below 20
pixels; no aspect or area test exists in this variant. -/
def gui_regionKept (w h : Int) : Bool :=
  !(w < 20 || h < 20)

/-- Bounding-box gate of `find_text_contours` (fixed variant, lines
64–73): height in (15, 80), width in (10, 200), width/height ratio in
(0.2, 8) and contour area above 100.  The Python float divisions and
literals agree with the `ℚ` comparisons at these magnitudes. -/
def fixed_contourKept (w h : Int) (area : ℚ) : Bool :=
  decide (15 < h ∧ h < 80 ∧ 10 < w ∧ w < 200 ∧
    (1 : ℚ) / 5 < (w : ℚ) / (h : ℚ) ∧ (w : ℚ) / (h : ℚ) < 8 ∧ area > 100)

/-- A contour as the pipeline sees it: the bounding rectangle returned
by `cv2.boundingRect` plus the `cv2.contourArea` measurement. -/
structure Contour where
  x : Int
  y : Int
  w : Int
  h : Int
  area : ℚ

/-- Embedding of `find_text_contours` (fixed variant, lines 59–75):
keep the bounding boxes of the contours passing the gate. -/
def find_text_contours (cs : List Contour) : List (Int × Int × Int × Int) :=
  (cs.filter (fun c => fixed_contourKept c.w c.h c.area)).map fun c => (c.x, c.y, c.w, c.h)

/-- Padded crop bounds of `process_image_with_ocr` (gui variant, lines
288–293): pad the box by 10 px and clamp to the image rectangle,
returning (x_start, y_start, x_end, y_end). -/
def gui_paddedBounds (x y w h W H : Int) : Int × Int × Int × Int :=
  let padding : Int := 10
  (max 0 (x - padding), max 0 (y - padding),
   min W (x + w + padding), min H (y + h + padding))

/-- Padded crop bounds of `extract_number_from_region` (fixed variant,
lines 79–84): pad by 5 px and clamp, returning
(x1, y1, x2, y2). -/
def fixed_paddedBounds (x y w h W H : Int) : Int × Int × Int × Int :=
  let pad : Int := 5
  (max 0 (x - pad), max 0 (y - pad),
   min W (x + w + pad), min H (y + h + pad))

/-- A candidate region of the gui pipeline: the bounding-box dimensions
tested by the size gate together with the OCR oracle describing what
Tesseract returns on the cropped pixels for each combination. -/
structure GRegion where
  w : Int
  h : Int
  ocr : Nat → String → Nat → Except String String

/-- Python `dict`-style accumulation: extend the value list of key `c`
when present (keys keep insertion order), otherwise append a new
binding — the behaviour of `defaultdict(list)` under
`color_values[c].extend(ns)`. -/
def dictUpsert (acc : List (String × List Nat)) (c : String) (ns : List Nat) :
    List (String × List Nat) :=
  if acc.any (fun p => p.1 = c) then
    acc.map fun p => if p.1 = c then (p.1, p.2 ++ ns) else p
  else acc ++ [(c, ns)]

/-- Embedding of `process_image_with_ocr` (gui variant, lines 261–306):
for each palette colour, for each contour of its mask, skip boxes
smaller than 20 px in either dimension, OCR the padded crop, and extend
the colour's value list when any numbers were found (the `defaultdict`
key is touched only inside `if numbers:`, so colours without numbers
never obtain an entry). -/
def process_image_with_ocr (colorRegions : List (String × List GRegion)) :
    List (String × List Nat) :=
  colorRegions.foldl
    (fun acc entry =>
      entry.2.foldl
        (fun acc2 r =>
          if gui_regionKept r.w r.h then
            let numbers := extract_numbers_from_region r.ocr
            if numbers.isEmpty then acc2 else dictUpsert acc2 entry.1 numbers
          else acc2)
        acc)
    []

/-- A text region of the fixed pipeline: the OCR oracle for its padded
grayscale crop together with the HSV pixels of the sampling window used
for colour classification. -/
structure FRegion where
  ocr : Nat → Except String String
  pixels : List HSV

/-- Loop body of `process_figjam_image` (fixed variant, lines 172–180):
extract a number from the region; under Python truthiness
(`if number:`) a result of 0 is discarded like `None`; then classify
the highlight colour and append the number to that colour's list. -/
def figjamStep (acc : List (String × List Nat)) (r : FRegion) :
    List (String × List Nat) :=
  match extract_number_from_region r.ocr with
  | none => acc
  | some n =>
    if n = 0 then acc
    else
      match get_color_at_location r.pixels with
      | none => acc
      | some c => dictUpsert acc c [n]

/-- Embedding of `process_figjam_image` (fixed variant, lines 156–182):
fold the per-region step over the detected text regions, starting from
an empty mapping. -/
def process_figjam_image (regions : List FRegion) : List (String × List Nat) :=
  regions.foldl figjamStep []

/-- Ordering used by Python `sorted(color_values.items())`: tuples are
compared by their first component; colour names are unique in a dict,
so the second component never decides. -/
def byName (a b : String × List Nat) : Prop := a.1 ≤ b.1

instance : DecidableRel byName := fun a b => inferInstanceAs (Decidable (a.1 ≤ b.1))

instance : IsTrans (String × List Nat) byName := ⟨fun _ _ _ => le_trans⟩

instance : IsTotal (String × List Nat) byName := ⟨fun a b => le_total a.1 b.1⟩

/-- Colour entries in ascending name order. -/
def sortByName (cv : List (String × List Nat)) : List (String × List Nat) :=
  cv.insertionSort byName

/-- Join values with " + ", as `" + ".join(str(v) for v in values)`. -/
def joinPlus (vs : List Nat) : String :=
  String.intercalate " + " (vs.map toString)

/-- The no-result message of the gui and v2 formatters. -/
def noValuesMsg : String := "No colored values detected in image"

namespace Gui

/-- One colour block of `format_color_results` (gui variant, lines
423–426): header, values joined in the stored (aggregation) order,
total with the `mm` suffix, and a blank separator line. -/
def colorBlock (name : String) (vs : List Nat) : List String :=
  [name ++ ":", "  Values: " ++ joinPlus vs,
   "  Total: " ++ toString vs.sum ++ " mm", ""]

/-- Result lines of `format_color_results` (gui variant, lines
415–429): iterate the colour entries in name order, emitting a block
for each colour that has values; when nothing was emitted, the single
no-values message. -/
def format_color_results_lines (cv : List (String × List Nat)) : List String :=
  let resultLines :=
    (sortByName cv).foldl
      (fun acc p => if p.2.isEmpty then acc else acc ++ colorBlock p.1 p.2) []
  if resultLines.isEmpty then [noValuesMsg] else resultLines

/-- Final string of `format_color_results`:
`"\n".join(result_lines).strip()`. -/
def format_color_results (cv : List (String × List Nat)) : String :=
  stripString (String.intercalate "\n" (format_color_results_lines cv))

end Gui

namespace V2

/-- One colour block of `format_color_results` (v2 variant, lines
191–198): identical to the gui block except that the values are sorted
ascending before joining. -/
def colorBlock (name : String) (vs : List Nat) : List String :=
  [name ++ ":", "  Values: " ++ joinPlus (vs.insertionSort (· ≤ ·)),
   "  Total: " ++ toString vs.sum ++ " mm", ""]

/-- Result lines of `format_color_results` (v2 variant, lines
187–202). -/
def format_color_results_lines (cv : List (String × List Nat)) : List String :=
  let resultLines :=
    (sortByName cv).foldl
      (fun acc p => if p.2.isEmpty then acc else acc ++ colorBlock p.1 p.2) []
  if resultLines.isEmpty then [noValuesMsg] else resultLines

/-- Final string of the v2 `format_color_results`. -/
def format_color_results (cv : List (String × List Nat)) : String :=
  stripString (String.intercalate "\n" (format_color_results_lines cv))

end V2

/-- Thousands grouping of Python's `f"{n:,}"` on the digit characters,
taken from the right in groups of three. -/
def groupThousands : List Char → List Char
  | a :: b :: c :: d :: rest => a :: b :: c :: ',' :: groupThousands (d :: rest)
  | short => short

/-- Python `f"{n:,}"` for a natural number. -/
def commaFormat (n : Nat) : String :=
  ⟨(groupThousands (toString n).data.reverse).reverse⟩

namespace Fixed

/-- Embedding of `format_results` (fixed variant, lines 207–227): the
fallback message on an empty mapping; otherwise one block per colour in
name order whose values are sorted ascending before joining, totals
comma-grouped with the `mm` suffix, and a final grand-total line. -/
def format_results (cv : List (String × List Nat)) : String :=
  if cv.isEmpty then "No highlighted numbers found"
  else
    let folded :=
      (sortByName cv).foldl
        (fun (st : List String × Nat) p =>
          let values := p.2.insertionSort (· ≤ ·)
          let total := values.sum
          (st.1 ++
            [p.1 ++ ":", "  Values: " ++ joinPlus values,
             "  Total: " ++ commaFormat total ++ " mm", ""],
           st.2 + total))
        ([], 0)
    String.intercalate "\n"
      (folded.1 ++ ["Grand Total: " ++ commaFormat folded.2 ++ " mm"])

end Fixed

/-- Modelled from the wording of claim C5 (the spec's ResultFormatter
contract): one block per colour with values, blocks sorted
alphabetically by colour name, each listing the name, the values joined
by " + " in aggregation order, and the per-colour total with the unit
suffix "mm". -/
def c5SpecLines (cv : List (String × List Nat)) : List String :=
  ((sortByName cv).filter (fun p => !p.2.isEmpty)).flatMap fun p =>
    [p.1 ++ ":",
     "  Values: " ++ String.intercalate " + " (p.2.map toString),
     "  Total: " ++ toString p.2.sum ++ " mm", ""]

/-! ### Helper lemmas -/

theorem firstMatch_eq_some {f : α → Option β} {b : β} :
    ∀ {l : List α}, firstMatch f l = some b → ∃ a ∈ l, f a = some b := by
  intro l
  induction l with
  | nil => intro h; simp [firstMatch] at h
  | cons x xs ih =>
    intro h
    rw [firstMatch] at h
    rcases hx : f x with _ | c
    · rw [hx] at h
      obtain ⟨a, ha, hfa⟩ := ih h
      exact ⟨a, List.mem_cons_of_mem _ ha, hfa⟩
    · rw [hx] at h
      exact ⟨x, List.mem_cons_self x xs, hx.trans h⟩

theorem plausibleRun_range {r : List Char} {n : Nat}
    (h : plausibleRun r = some n) : 10 ≤ n ∧ n ≤ 9999 := by
  simp only [plausibleRun] at h
  split at h
  · split at h
    · cases h; assumption
    · exact absurd h (by simp)
  · exact absurd h (by simp)

theorem extract_number_from_region_range
    {ocr : Nat → Except String String} {n : Nat}
    (h : extract_number_from_region ocr = some n) : 10 ≤ n ∧ n ≤ 9999 := by
  obtain ⟨i, _, hi⟩ := firstMatch_eq_some h
  rcases ho : ocr i with e | t
  · rw [ho] at hi; cases hi
  · rw [ho] at hi
    obtain ⟨r, _, hr⟩ := firstMatch_eq_some hi
    exact plausibleRun_range hr

theorem mem_dedupFirstAux {a : Nat} :
    ∀ {l seen : List Nat}, a ∈ dedupFirstAux seen l ↔ a ∈ l ∧ a ∉ seen := by
  intro l
  induction l with
  | nil => intro seen; simp [dedupFirstAux]
  | cons x xs ih =>
    intro seen
    rw [dedupFirstAux]
    by_cases hx : x ∈ seen
    · rw [if_pos hx, ih]
      constructor
      · rintro ⟨hm, hs⟩; exact ⟨List.mem_cons_of_mem _ hm, hs⟩
      · rintro ⟨hm, hs⟩
        rcases List.mem_cons.mp hm with rfl | hm2
        · exact absurd hx hs
        · exact ⟨hm2, hs⟩
    · rw [if_neg hx]
      constructor
      · intro h
        rcases List.mem_cons.mp h with rfl | h2
        · exact ⟨List.mem_cons_self a xs, hx⟩
        · obtain ⟨hm, hs⟩ := ih.mp h2
          exact ⟨List.mem_cons_of_mem _ hm,
            fun hc => hs (List.mem_cons_of_mem _ hc)⟩
      · rintro ⟨hm, hs⟩
        rcases List.mem_cons.mp hm with rfl | hm2
        · exact List.mem_cons_self a _
        · by_cases hax : a = x
          · exact hax ▸ List.mem_cons_self x _
          · refine List.mem_cons_of_mem _ (ih.mpr ⟨hm2, ?_⟩)
            intro hc
            rcases List.mem_cons.mp hc with h3 | h3
            · exact hax h3
            · exact hs h3

theorem mem_dedupFirst {a : Nat} {l : List Nat} : a ∈ dedupFirst l ↔ a ∈ l := by
  simp [dedupFirst, mem_dedupFirstAux]

theorem nodup_dedupFirstAux : ∀ (l seen : List Nat), (dedupFirstAux seen l).Nodup := by
  intro l
  induction l with
  | nil => intro seen; simp [dedupFirstAux]
  | cons x xs ih =>
    intro seen
    rw [dedupFirstAux]
    split
    · exact ih seen
    · refine List.Nodup.cons ?_ (ih (x :: seen))
      intro hc
      exact (mem_dedupFirstAux.mp hc).2 (List.mem_cons_self x seen)

theorem nodup_dedupFirst (l : List Nat) : (dedupFirst l).Nodup := nodup_dedupFirstAux l []

/-- Index of the first occurrence of a value in a list (length of the
list when absent): the position at which the value was first seen. -/
def firstIdx (a : Nat) : List Nat → Nat
  | [] => 0
  | x :: xs => if x = a then 0 else firstIdx a xs + 1

theorem firstIdx_cons_self {a : Nat} {l : List Nat} : firstIdx a (a :: l) = 0 := by
  simp [firstIdx]

theorem firstIdx_cons_ne {a x : Nat} {l : List Nat} (h : x ≠ a) :
    firstIdx a (x :: l) = firstIdx a l + 1 := by
  simp [firstIdx, h]

theorem pairwise_firstIdx_dedupFirstAux :
    ∀ (l seen : List Nat),
      (dedupFirstAux seen l).Pairwise (fun a b => firstIdx a l < firstIdx b l) := by
  intro l
  induction l with
  | nil => intro seen; simp [dedupFirstAux]
  | cons x xs ih =>
    intro seen
    rw [dedupFirstAux]
    by_cases hx : x ∈ seen
    · rw [if_pos hx]
      refine (ih seen).imp_of_mem ?_
      intro a b ha hb hlt
      have hane : x ≠ a := fun hc => (mem_dedupFirstAux.mp ha).2 (hc ▸ hx)
      have hbne : x ≠ b := fun hc => (mem_dedupFirstAux.mp hb).2 (hc ▸ hx)
      rw [firstIdx_cons_ne hane, firstIdx_cons_ne hbne]
      exact Nat.succ_lt_succ hlt
    · rw [if_neg hx]
      refine List.pairwise_cons.mpr ⟨?_, ?_⟩
      · intro b hb
        have hbne : x ≠ b := fun hc =>
          (mem_dedupFirstAux.mp hb).2 (hc ▸ List.mem_cons_self x seen)
        rw [firstIdx_cons_self, firstIdx_cons_ne hbne]
        exact Nat.succ_pos _
      · refine (ih (x :: seen)).imp_of_mem ?_
        intro a b ha hb hlt
        have hane : x ≠ a := fun hc =>
          (mem_dedupFirstAux.mp ha).2 (hc ▸ List.mem_cons_self x seen)
        have hbne : x ≠ b := fun hc =>
          (mem_dedupFirstAux.mp hb).2 (hc ▸ List.mem_cons_self x seen)
        rw [firstIdx_cons_ne hane, firstIdx_cons_ne hbne]
        exact Nat.succ_lt_succ hlt

theorem pairwise_firstIdx_dedupFirst (l : List Nat) :
    (dedupFirst l).Pairwise (fun a b => firstIdx a l < firstIdx b l) :=
  pairwise_firstIdx_dedupFirstAux l []

theorem mem_comboCandidates {ocr : Nat → String → Nat → Except String String}
    {a p n : Nat} {m : String} :
    n ∈ comboCandidates ocr a m p ↔
      ∃ t, ocr a m p = Except.ok t ∧ n ∈ findAllNums t := by
  unfold comboCandidates
  rcases h : ocr a m p with e | t <;> simp

theorem mem_gui_rawCandidates {ocr : Nat → String → Nat → Except String String} {n : Nat} :
    n ∈ gui_rawCandidates ocr ↔
      ∃ a ∈ rotationAngles, ∃ m ∈ preprocessingModes, ∃ p ∈ psmModes,
        ∃ t, ocr a m p = Except.ok t ∧ n ∈ findAllNums t := by
  simp only [gui_rawCandidates, List.mem_flatMap, mem_comboCandidates]

theorem foldl_blocks (B : String × List Nat → List String) :
    ∀ (l : List (String × List Nat)) (acc : List String),
      l.foldl (fun acc p => if p.2.isEmpty then acc else acc ++ B p) acc =
        acc ++ (l.filter (fun p => !p.2.isEmpty)).flatMap B := by
  intro l
  induction l with
  | nil => intro acc; simp
  | cons q l ih =>
    intro acc
    rw [List.foldl_cons, List.filter_cons]
    cases hq : q.2.isEmpty
    · rw [ih]; simp [List.append_assoc]
    · rw [ih]; simp

theorem filter_orderedInsert {r : α → α → Prop} [DecidableRel r]
    [IsTrans α r] (p : α → Bool) (a : α) :
    ∀ (l : List α), l.Sorted r →
      (l.orderedInsert r a).filter p =
        if p a then (l.filter p).orderedInsert r a else l.filter p := by
  intro l
  induction l with
  | nil =>
    intro _
    simp only [List.orderedInsert, List.filter_nil]
    by_cases hp : p a <;> simp [hp, List.filter, List.orderedInsert]
  | cons b t ih =>
    intro hsort
    have hbt : ∀ c ∈ t, r b c := List.rel_of_sorted_cons hsort
    have htsort : t.Sorted r := hsort.of_cons
    rw [List.orderedInsert]
    by_cases hr : r a b
    · rw [if_pos hr]
      by_cases hp : p a
      · rw [if_pos hp, List.filter_cons, if_pos (by simpa using hp)]
        have key : ∀ m : List α, (∀ c ∈ m, c = b ∨ c ∈ t) →
            m.orderedInsert r a = a :: m := by
          intro m hm
          cases m with
          | nil => rfl
          | cons c cs =>
            rw [List.orderedInsert]
            rcases hm c (List.mem_cons_self c cs) with rfl | hc
            · rw [if_pos hr]
            · rw [if_pos (Trans.trans hr (hbt c hc))]
        rw [key ((b :: t).filter p) (fun c hc => List.mem_cons.mp (List.mem_of_mem_filter hc))]
      · rw [if_neg hp, List.filter_cons, if_neg (by simpa using hp)]
    · rw [if_neg hr, List.filter_cons, List.filter_cons]
      by_cases hp : p a <;> by_cases hpb : p b
      · simp only [if_pos hp, if_pos hpb]
        rw [ih htsort, if_pos hp, List.orderedInsert, if_neg hr]
      · simp only [if_pos hp, if_neg hpb]
        rw [ih htsort, if_pos hp]
      · simp only [if_neg hp, if_pos hpb]
        rw [ih htsort, if_neg hp]
      · simp only [if_neg hp, if_neg hpb]
        rw [ih htsort, if_neg hp]

theorem filter_insertionSort {r : α → α → Prop} [DecidableRel r]
    [IsTrans α r] [IsTotal α r] (p : α → Bool) :
    ∀ l : List α, (l.insertionSort r).filter p = (l.filter p).insertionSort r := by
  intro l
  induction l with
  | nil => rfl
  | cons a t ih =>
    rw [List.insertionSort, List.filter_cons,
      filter_orderedInsert p a _ (List.sorted_insertionSort r t), ih]
    by_cases hp : p a
    · rw [if_pos hp, if_pos (by simpa using hp), List.insertionSort]
    · rw [if_neg hp, if_neg (by simpa using hp)]

theorem dictUpsert_forall {P : Nat → Prop} {acc : List (String × List Nat)}
    {c : String} {ns : List Nat}
    (hacc : ∀ p ∈ acc, ∀ v ∈ p.2, P v) (hns : ∀ v ∈ ns, P v) :
    ∀ p ∈ dictUpsert acc c ns, ∀ v ∈ p.2, P v := by
  unfold dictUpsert
  split
  · intro p hp
    obtain ⟨q, hq, hpq⟩ := List.mem_map.mp hp
    by_cases hqc : q.1 = c
    · rw [if_pos hqc] at hpq
      intro v hv
      rw [← hpq] at hv
      rcases List.mem_append.mp hv with h | h
      · exact hacc q hq v h
      · exact hns v h
    · rw [if_neg hqc] at hpq
      exact hpq ▸ hacc q hq
  · intro p hp
    rcases List.mem_append.mp hp with h | h
    · exact hacc p h
    · rw [List.mem_singleton.mp h]
      exact hns

theorem foldl_figjamStep_range :
    ∀ (regions : List FRegion) (acc : List (String × List Nat)),
      (∀ p ∈ acc, ∀ v ∈ p.2, 10 ≤ v ∧ v ≤ 9999) →
      ∀ p ∈ regions.foldl figjamStep acc, ∀ v ∈ p.2, 10 ≤ v ∧ v ≤ 9999 := by
  intro regions
  induction regions with
  | nil => intro acc hacc; simpa using hacc
  | cons r rs ih =>
    intro acc hacc
    rw [List.foldl_cons]
    refine ih _ ?_
    unfold figjamStep
    rcases hext : extract_number_from_region r.ocr with _ | n
    · exact hacc
    · dsimp only
      by_cases hn : n = 0
      · rw [if_pos hn]; exact hacc
      · rw [if_neg hn]
        rcases get_color_at_location r.pixels with _ | c
        · exact hacc
        · exact dictUpsert_forall hacc
            (by
              intro v hv
              rw [List.mem_singleton.mp hv]
              exact extract_number_from_region_range hext)

theorem append_colon_ne_msg (s : String) : s ++ ":" ≠ noValuesMsg := by
  intro h
  have hd := congrArg String.data h
  rw [String.data_append] at hd
  have h2 : (s.data ++ (":" : String).data).getLast? = noValuesMsg.data.getLast? := by
    rw [hd]
  rw [show (":" : String).data = [':'] from rfl, List.getLast?_concat,
    show noValuesMsg.data.getLast? = some 'e' from rfl] at h2
  exact absurd h2 (by decide)

theorem values_prefix_ne_msg (s : String) : "  Values: " ++ s ≠ noValuesMsg := by
  intro h
  have hd := congrArg String.data h
  rw [String.data_append] at hd
  have h2 : noValuesMsg.data.head? = some ' ' := by rw [← hd]; rfl
  exact absurd h2 (by decide)

theorem total_prefix_ne_msg (s : String) : "  Total: " ++ s ≠ noValuesMsg := by
  intro h
  have hd := congrArg String.data h
  rw [String.data_append] at hd
  have h2 : noValuesMsg.data.head? = some ' ' := by rw [← hd]; rfl
  exact absurd h2 (by decide)

theorem gui_colorBlock_ne_msg {name : String} {vs : List Nat} :
    ∀ line ∈ Gui.colorBlock name vs, line ≠ noValuesMsg := by
  intro line hline
  simp only [Gui.colorBlock, List.mem_cons, List.not_mem_nil, or_false] at hline
  rcases hline with rfl | rfl | rfl | rfl
  · exact append_colon_ne_msg name
  · exact values_prefix_ne_msg _
  · exact total_prefix_ne_msg _
  · decide

theorem v2_colorBlock_ne_msg {name : String} {vs : List Nat} :
    ∀ line ∈ V2.colorBlock name vs, line ≠ noValuesMsg := by
  intro line hline
  simp only [V2.colorBlock, List.mem_cons, List.not_mem_nil, or_false] at hline
  rcases hline with rfl | rfl | rfl | rfl
  · exact append_colon_ne_msg name
  · exact values_prefix_ne_msg _
  · exact total_prefix_ne_msg _
  · decide

theorem gui_lines_eq (cv : List (String × List Nat)) :
    Gui.format_color_results_lines cv =
      (if ((sortByName cv).filter (fun p => !p.2.isEmpty)).flatMap
            (fun p => Gui.colorBlock p.1 p.2) = [] then [noValuesMsg]
       else ((sortByName cv).filter (fun p => !p.2.isEmpty)).flatMap
            (fun p => Gui.colorBlock p.1 p.2)) := by
  unfold Gui.format_color_results_lines
  rw [foldl_blocks (fun p => Gui.colorBlock p.1 p.2) (sortByName cv) [], List.nil_append]
  by_cases hc : ((sortByName cv).filter (fun p => !p.2.isEmpty)).flatMap
      (fun p => Gui.colorBlock p.1 p.2) = []
  · rw [if_pos (by simp [hc]), if_pos hc]
  · rw [if_neg (by simpa [List.isEmpty_iff] using hc), if_neg hc]

theorem v2_lines_eq (cv : List (String × List Nat)) :
    V2.format_color_results_lines cv =
      (if ((sortByName cv).filter (fun p => !p.2.isEmpty)).flatMap
            (fun p => V2.colorBlock p.1 p.2) = [] then [noValuesMsg]
       else ((sortByName cv).filter (fun p => !p.2.isEmpty)).flatMap
            (fun p => V2.colorBlock p.1 p.2)) := by
  unfold V2.format_color_results_lines
  rw [foldl_blocks (fun p => V2.colorBlock p.1 p.2) (sortByName cv) [], List.nil_append]
  by_cases hc : ((sortByName cv).filter (fun p => !p.2.isEmpty)).flatMap
      (fun p => V2.colorBlock p.1 p.2) = []
  · rw [if_pos (by simp [hc]), if_pos hc]
  · rw [if_neg (by simpa [List.isEmpty_iff] using hc), if_neg hc]

theorem gui_core_eq_nil_iff (cv : List (String × List Nat)) :
    ((sortByName cv).filter (fun p => !p.2.isEmpty)).flatMap
        (fun p => Gui.colorBlock p.1 p.2) = [] ↔ ∀ p ∈ cv, p.2 = [] := by
  rw [List.flatMap_eq_nil_iff]
  constructor
  · intro h p hp
    by_contra hne
    have hmem : p ∈ (sortByName cv).filter (fun p => !p.2.isEmpty) := by
      rw [List.mem_filter]
      exact ⟨(List.mem_insertionSort byName).mpr hp, by simpa [List.isEmpty_iff] using hne⟩
    exact absurd (h p hmem) (by simp [Gui.colorBlock])
  · intro h p hp
    rw [List.mem_filter] at hp
    have := h p ((List.mem_insertionSort byName).mp hp.1)
    exact absurd (by simpa [List.isEmpty_iff] using hp.2) (by simp [this])

theorem v2_core_eq_nil_iff (cv : List (String × List Nat)) :
    ((sortByName cv).filter (fun p => !p.2.isEmpty)).flatMap
        (fun p => V2.colorBlock p.1 p.2) = [] ↔ ∀ p ∈ cv, p.2 = [] := by
  rw [List.flatMap_eq_nil_iff]
  constructor
  · intro h p hp
    by_contra hne
    have hmem : p ∈ (sortByName cv).filter (fun p => !p.2.isEmpty) := by
      rw [List.mem_filter]
      exact ⟨(List.mem_insertionSort byName).mpr hp, by simpa [List.isEmpty_iff] using hne⟩
    exact absurd (h p hmem) (by simp [V2.colorBlock])
  · intro h p hp
    rw [List.mem_filter] at hp
    have := h p ((List.mem_insertionSort byName).mp hp.1)
    exact absurd (by simpa [List.isEmpty_iff] using hp.2) (by simp [this])

/-- Replace an OCR error outcome by the empty text — the behaviour the
`except … continue` handlers give an erroring combination. -/
def recoverText : Except String String → Except String String
  | .error _ => .ok ""
  | .ok t => .ok t

theorem comboCandidates_recover (ocr : Nat → String → Nat → Except String String)
    (a : Nat) (m : String) (p : Nat) :
    comboCandidates (fun a m p => recoverText (ocr a m p)) a m p =
      comboCandidates ocr a m p := by
  unfold comboCandidates recoverText
  dsimp only
  rcases ocr a m p with e | t <;> rfl

/-! ### Claim theorems -/

/-- Claim C1, counterexample.  The claim states that every integer in a
colour's value list of the aggregation result lies in the configured
plausible range (10–9999).  In the gui variant the range check is
commented out (`# if 10 <= num_val <= 9999:`), so a 20×20 Purple region
whose OCR reads "5" puts the out-of-range value 5 into Purple's value
list. -/
theorem c1_counterexample :
    process_image_with_ocr [("Purple", [⟨20, 20, fun _ _ _ => Except.ok "5"⟩])] =
      [("Purple", [5])] ∧ (5 : Nat) < 10 :=
  ⟨rfl, by decide⟩

/-- Claim C1, amended: in the fixed variant every value appearing in
any colour's list of the aggregation result lies in the plausible range
10 ≤ v ≤ 9999; the gui variant applies no range filter, so values
outside the range can appear there (see the counterexample). -/
theorem c1_fixed_range (regions : List FRegion) :
    ∀ p ∈ process_figjam_image regions, ∀ v ∈ p.2, 10 ≤ v ∧ v ≤ 9999 :=
  foldl_figjamStep_range regions [] (by simp)

/-- Witness for the amended claim C1 at a concrete region whose OCR
reads "150" on a green-highlighted sample. -/
theorem c1_witness : 10 ≤ 150 ∧ 150 ≤ 9999 :=
  c1_fixed_range [⟨fun _ => Except.ok "150", [⟨60, 100, 200⟩]⟩]
    ("Green", [150]) (by decide) 150 (by decide)

/-- Claim C2, counterexample.  The claim states that region extraction
returns all numeric candidates parsed from any combination's OCR text.
In the fixed variant the OCR text "12 34" parses to the candidates
[12, 34], both plausible, yet `extract_number_from_region` returns only
the first (`return num` inside the scan loop). -/
theorem c2_counterexample :
    extract_number_from_region (fun _ => Except.ok "12 34") = some 12 ∧
      findAllNums (stripString "12 34") = [12, 34] :=
  ⟨rfl, rfl⟩

/-- Claim C2, amended: the gui variant's extraction returns exactly the
integers parsed from some successful (rotation, preprocessing, psm)
combination (all candidates, deduplicated); the fixed variant returns
at most one integer, which is parsed from one of its preprocessing
methods' OCR texts — not the full candidate set. -/
theorem c2_extraction_candidates :
    (∀ (ocr : Nat → String → Nat → Except String String) (n : Nat),
        n ∈ extract_numbers_from_region ocr ↔
          ∃ a ∈ rotationAngles, ∃ m ∈ preprocessingModes, ∃ p ∈ psmModes,
            ∃ t, ocr a m p = Except.ok t ∧ n ∈ findAllNums t) ∧
    (∀ (ocrF : Nat → Except String String) (n : Nat),
        extract_number_from_region ocrF = some n →
          ∃ i ∈ fixedMethods, ∃ t, ocrF i = Except.ok t ∧
            n ∈ findAllNums (stripString t)) := by
  constructor
  · intro ocr n
    rw [extract_numbers_from_region, mem_dedupFirst, mem_gui_rawCandidates]
  · intro ocrF n h
    obtain ⟨i, hi, hfi⟩ := firstMatch_eq_some h
    rcases ho : ocrF i with e | t
    · rw [ho] at hfi; cases hfi
    · rw [ho] at hfi
      obtain ⟨r, hr, hpr⟩ := firstMatch_eq_some hfi
      refine ⟨i, hi, t, ho, ?_⟩
      have hn : n = parseDigits r := by
        simp only [plausibleRun] at hpr
        split at hpr
        · split at hpr
          · exact (Option.some.inj hpr).symm
          · exact absurd hpr (by simp)
        · exact absurd hpr (by simp)
      rw [hn, findAllNums]
      exact List.mem_map_of_mem parseDigits hr

/-- Witness for the amended claim C2 (fixed-variant part), discharging
its hypothesis at the OCR oracle that reads "12 34" everywhere. -/
theorem c2_witness :
    ∃ i ∈ fixedMethods, ∃ t, (fun _ : Nat => Except.ok (ε := String) "12 34") i =
      Except.ok t ∧ 12 ∈ findAllNums (stripString t) :=
  c2_extraction_candidates.2 (fun _ => Except.ok "12 34") 12 rfl

/-- Claim C3, counterexample.  The claim states that a reference colour
whose lower hue bound exceeds its upper bound matches pixels with hue
in either sub-range, citing both the v2 and the fixed variants.  The
fixed variant's `get_color_at_location` applies one inclusive
`cv2.inRange` with no wrap handling, so for the wrapping colour
(lower 160, upper 10) the pixels at hue 170 and at hue 5 — which the
claim says must both match — match neither, and the colour's pixel
count over them is 0. -/
theorem c3_counterexample :
    160 > 10 ∧
    inRangePix ⟨160, 40, 40⟩ ⟨10, 255, 255⟩ ⟨170, 100, 200⟩ = false ∧
    inRangePix ⟨160, 40, 40⟩ ⟨10, 255, 255⟩ ⟨5, 100, 200⟩ = false ∧
    fixed_colorCount ⟨160, 40, 40⟩ ⟨10, 255, 255⟩
      [⟨170, 100, 200⟩, ⟨5, 100, 200⟩] = 0 := by
  decide

/-- Claim C3, amended: the v2 variant's matcher does handle wrap-around
— for a colour whose lower hue bound exceeds its upper bound, a pixel
matches exactly when its hue lies in [0, upper] or in [lower, 180]
(with saturation and value within bounds); the fixed variant's matcher
uses a single inclusive range, under which such a colour matches no
pixel on either side (see the counterexample). -/
theorem c3_v2_hue_wrap (lo hi p : HSV) (hwrap : hi.h < lo.h) :
    v2_pixelMatch lo hi p = true ↔
      ((p.h ≤ hi.h ∨ (lo.h ≤ p.h ∧ p.h ≤ 180)) ∧
        lo.s ≤ p.s ∧ p.s ≤ hi.s ∧ lo.v ≤ p.v ∧ p.v ≤ hi.v) := by
  unfold v2_pixelMatch
  rw [if_pos hwrap]
  simp only [inRangePix, Bool.or_eq_true, decide_eq_true_eq]
  omega

/-- Witness for the amended claim C3: with lower hue 160 and upper hue
10, the v2 matcher accepts both the hue-170 and the hue-5 pixel. -/
theorem c3_witness :
    v2_pixelMatch ⟨160, 40, 40⟩ ⟨10, 255, 255⟩ ⟨170, 100, 200⟩ = true ∧
    v2_pixelMatch ⟨160, 40, 40⟩ ⟨10, 255, 255⟩ ⟨5, 100, 200⟩ = true :=
  ⟨(c3_v2_hue_wrap _ _ _ (by decide)).mpr (by decide),
   (c3_v2_hue_wrap _ _ _ (by decide)).mpr (by decide)⟩

/-- Claim C4, confirmed: an OCR error on an individual combination is
skipped exactly like a combination returning no text — replacing every
error outcome by the empty text leaves both variants' extraction
results unchanged — and when every combination errors, extraction still
returns (the empty list, resp. `none`) rather than failing; totality of
the embedded functions reflects that no exception escapes the loop. -/
theorem c4_ocr_errors_skipped :
    (∀ ocr : Nat → String → Nat → Except String String,
        extract_numbers_from_region (fun a m p => recoverText (ocr a m p)) =
          extract_numbers_from_region ocr) ∧
    extract_numbers_from_region (fun _ _ _ => Except.error "ocr failure") = [] ∧
    (∀ ocrF : Nat → Except String String,
        extract_number_from_region (fun i => recoverText (ocrF i)) =
          extract_number_from_region ocrF) ∧
    extract_number_from_region (fun _ => Except.error "ocr failure") = none := by
  refine ⟨?_, rfl, ?_, rfl⟩
  · intro ocr
    have h : comboCandidates (fun a m p => recoverText (ocr a m p)) = comboCandidates ocr :=
      funext fun a => funext fun m => funext fun p => comboCandidates_recover ocr a m p
    unfold extract_numbers_from_region gui_rawCandidates
    rw [h]
  · intro ocrF
    unfold extract_number_from_region
    have h : (fun i => match recoverText (ocrF i) with
        | Except.ok text => firstMatch plausibleRun (digitRuns (stripString text).data)
        | Except.error _ => none) =
      (fun i => match ocrF i with
        | Except.ok text => firstMatch plausibleRun (digitRuns (stripString text).data)
        | Except.error _ => none) := by
      funext i
      rcases ocrF i with e | t <;> rfl
    rw [h]

/-- Claim C5, counterexample.  The claim states that each colour block
lists the values joined by "+" in aggregation order (explicitly not
numerically sorted).  The fixed variant's `format_results` sorts each
colour's values ascending before joining (and appends a grand-total
line): on the aggregation-ordered list [20, 10] it prints
"10 + 20", not the aggregation-order join "20 + 10". -/
theorem c5_counterexample :
    Fixed.format_results [("Green", [20, 10])] =
      "Green:\n  Values: 10 + 20\n  Total: 30 mm\n\nGrand Total: 30 mm" ∧
    "  Values: 10 + 20" ≠ "  Values: " ++ joinPlus [20, 10] :=
  ⟨rfl, by decide⟩

/-- Claim C5, amended: the gui variant's formatter behaves as claimed —
on an aggregation result with at least one value it emits exactly one
block per non-empty colour, blocks sorted alphabetically by name, each
listing the colour name, the "+"-joined values in aggregation order and
the total with the "mm" suffix (the specification-side rendering
`c5SpecLines`); the fixed variant instead sorts each colour's values
ascending and appends a grand-total line (see the counterexample). -/
theorem c5_gui_format (cv : List (String × List Nat)) (hne : ∃ p ∈ cv, p.2 ≠ []) :
    Gui.format_color_results_lines cv = c5SpecLines cv := by
  rw [gui_lines_eq, if_neg ?hcore]
  case hcore =>
    intro hc
    obtain ⟨p, hp, hne2⟩ := hne
    exact hne2 ((gui_core_eq_nil_iff cv).mp hc p hp)
  rfl

/-- Witness for the amended claim C5 at a two-value colour map. -/
theorem c5_witness :
    Gui.format_color_results_lines [("Green", [20, 10])] =
      c5SpecLines [("Green", [20, 10])] :=
  c5_gui_format [("Green", [20, 10])] ⟨("Green", [20, 10]), by decide, by decide⟩

/-- Claim C6, confirmed for both cited variants (gui and v2): the
formatter's output is the single no-values message exactly when every
colour's value list is empty, and when some colour has a value the
message does not occur among the emitted lines. -/
theorem c6_no_values_message (cv : List (String × List Nat)) :
    ((Gui.format_color_results_lines cv = [noValuesMsg] ↔ ∀ p ∈ cv, p.2 = []) ∧
      ((∃ p ∈ cv, p.2 ≠ []) → noValuesMsg ∉ Gui.format_color_results_lines cv)) ∧
    ((V2.format_color_results_lines cv = [noValuesMsg] ↔ ∀ p ∈ cv, p.2 = []) ∧
      ((∃ p ∈ cv, p.2 ≠ []) → noValuesMsg ∉ V2.format_color_results_lines cv)) := by
  have hgmem : noValuesMsg ∉
      ((sortByName cv).filter (fun p => !p.2.isEmpty)).flatMap
        (fun p => Gui.colorBlock p.1 p.2) := by
    intro hmem
    obtain ⟨p, _, hline⟩ := List.mem_flatMap.mp hmem
    exact gui_colorBlock_ne_msg _ hline rfl
  have hvmem : noValuesMsg ∉
      ((sortByName cv).filter (fun p => !p.2.isEmpty)).flatMap
        (fun p => V2.colorBlock p.1 p.2) := by
    intro hmem
    obtain ⟨p, _, hline⟩ := List.mem_flatMap.mp hmem
    exact v2_colorBlock_ne_msg _ hline rfl
  constructor
  · constructor
    · rw [gui_lines_eq]
      by_cases hc : ((sortByName cv).filter (fun p => !p.2.isEmpty)).flatMap
          (fun p => Gui.colorBlock p.1 p.2) = []
      · rw [if_pos hc]
        exact iff_of_true rfl ((gui_core_eq_nil_iff cv).mp hc)
      · rw [if_neg hc]
        refine iff_of_false (fun he => hgmem ?_) fun hall => hc ?_
        · rw [he]; exact List.mem_singleton_self _
        · exact (gui_core_eq_nil_iff cv).mpr hall
    · intro hne
      rw [gui_lines_eq, if_neg ?hg]
      case hg =>
        intro hc
        obtain ⟨p, hp, hne2⟩ := hne
        exact hne2 ((gui_core_eq_nil_iff cv).mp hc p hp)
      exact hgmem
  · constructor
    · rw [v2_lines_eq]
      by_cases hc : ((sortByName cv).filter (fun p => !p.2.isEmpty)).flatMap
          (fun p => V2.colorBlock p.1 p.2) = []
      · rw [if_pos hc]
        exact iff_of_true rfl ((v2_core_eq_nil_iff cv).mp hc)
      · rw [if_neg hc]
        refine iff_of_false (fun he => hvmem ?_) fun hall => hc ?_
        · rw [he]; exact List.mem_singleton_self _
        · exact (v2_core_eq_nil_iff cv).mpr hall
    · intro hne
      rw [v2_lines_eq, if_neg ?hv]
      case hv =>
        intro hc
        obtain ⟨p, hp, hne2⟩ := hne
        exact hne2 ((v2_core_eq_nil_iff cv).mp hc p hp)
      exact hvmem

/-- Witness for claim C6: a colour map with one green value makes the
no-values message absent from the gui formatter's lines. -/
theorem c6_witness :
    noValuesMsg ∉ Gui.format_color_results_lines [("Green", [10])] :=
  (c6_no_values_message [("Green", [10])]).1.2 ⟨("Green", [10]), by decide, by decide⟩

/-- Claim C7, confirmed: within a region, the gui variant's extraction
result contains each integer at most once, contains exactly the
integers produced by the OCR attempts, and lists them strictly in the
order of their first occurrence among the raw candidates. -/
theorem c7_dedup_first_seen (ocr : Nat → String → Nat → Except String String) :
    (extract_numbers_from_region ocr).Nodup ∧
    (∀ n, n ∈ extract_numbers_from_region ocr ↔ n ∈ gui_rawCandidates ocr) ∧
    (extract_numbers_from_region ocr).Pairwise
      (fun a b => firstIdx a (gui_rawCandidates ocr) < firstIdx b (gui_rawCandidates ocr)) :=
  ⟨nodup_dedupFirst _, fun _ => mem_dedupFirst, pairwise_firstIdx_dedupFirst _⟩

/-- Claim C8, counterexample.  The claim states a component is retained
only if its aspect ratio lies within roughly 0.1–10.  The gui variant's
gate keeps a 20×300 bounding box (both dimensions pass the only test it
applies, `w < 20 or h < 20`), although its width/height ratio 1/15 is
below 0.1. -/
theorem c8_counterexample :
    gui_regionKept 20 300 = true ∧ ¬ ((1 : ℚ) / 10 < (20 : ℚ) / (300 : ℚ)) :=
  ⟨rfl, by norm_num⟩

/-- Claim C8, amended: the fixed variant's contour gate implies the
claimed bounds — a retained component has width above 10, height above
15 and width/height ratio strictly inside (0.1, 10) — while the gui
variant's gate tests only the minimum size (both dimensions at least
20) and applies no aspect-ratio test at all. -/
theorem c8_region_filters :
    (∀ (w h : Int) (area : ℚ), fixed_contourKept w h area = true →
        10 < w ∧ 15 < h ∧
          (1 : ℚ) / 10 < (w : ℚ) / (h : ℚ) ∧ (w : ℚ) / (h : ℚ) < 10) ∧
    (∀ w h : Int, gui_regionKept w h = true ↔ 20 ≤ w ∧ 20 ≤ h) := by
  constructor
  · intro w h area hkept
    rw [fixed_contourKept, decide_eq_true_eq] at hkept
    obtain ⟨h15, _, h10, _, hlo, hhi, _⟩ := hkept
    refine ⟨h10, h15, lt_trans (by norm_num) hlo, lt_trans hhi (by norm_num)⟩
  · intro w h
    rw [gui_regionKept]
    constructor
    · intro hk
      simp only [Bool.not_eq_eq_eq_not, Bool.not_true, Bool.or_eq_false_iff,
        decide_eq_false_iff_not, not_lt] at hk
      exact hk
    · intro ⟨hw, hh⟩
      simp only [Bool.not_eq_eq_eq_not, Bool.not_true, Bool.or_eq_false_iff,
        decide_eq_false_iff_not, not_lt]
      exact ⟨hw, hh⟩

/-- Witness for the amended claim C8 at the 30×20 contour of area
200. -/
theorem c8_witness :
    10 < (30 : Int) ∧ 15 < (20 : Int) ∧
      (1 : ℚ) / 10 < (30 : ℚ) / (20 : ℚ) ∧ (30 : ℚ) / (20 : ℚ) < 10 :=
  c8_region_filters.1 30 20 200
    (by rw [fixed_contourKept, decide_eq_true_eq]; norm_num)

/-- Claim C9, confirmed: for a bounding box lying inside the image
(non-negative origin and extent, right/bottom edge within the image),
both variants' padded crop bounds satisfy
0 ≤ start ≤ end ≤ image size on each axis, so the crop never indexes
outside the image. -/
theorem c9_pad_clamped (x y w h W H : Int)
    (hx : 0 ≤ x) (hy : 0 ≤ y) (hw : 0 ≤ w) (hh : 0 ≤ h)
    (hxW : x + w ≤ W) (hyH : y + h ≤ H) :
    (0 ≤ (gui_paddedBounds x y w h W H).1 ∧
      (gui_paddedBounds x y w h W H).1 ≤ (gui_paddedBounds x y w h W H).2.2.1 ∧
      (gui_paddedBounds x y w h W H).2.2.1 ≤ W ∧
      0 ≤ (gui_paddedBounds x y w h W H).2.1 ∧
      (gui_paddedBounds x y w h W H).2.1 ≤ (gui_paddedBounds x y w h W H).2.2.2 ∧
      (gui_paddedBounds x y w h W H).2.2.2 ≤ H) ∧
    (0 ≤ (fixed_paddedBounds x y w h W H).1 ∧
      (fixed_paddedBounds x y w h W H).1 ≤ (fixed_paddedBounds x y w h W H).2.2.1 ∧
      (fixed_paddedBounds x y w h W H).2.2.1 ≤ W ∧
      0 ≤ (fixed_paddedBounds x y w h W H).2.1 ∧
      (fixed_paddedBounds x y w h W H).2.1 ≤ (fixed_paddedBounds x y w h W H).2.2.2 ∧
      (fixed_paddedBounds x y w h W H).2.2.2 ≤ H) := by
  unfold gui_paddedBounds fixed_paddedBounds
  dsimp only
  refine ⟨⟨?_, ?_, ?_, ?_, ?_, ?_⟩, ?_, ?_, ?_, ?_, ?_, ?_⟩ <;> omega

/-- Witness for claim C9 at a 30×30 box at (5, 5) inside a 100×100
image. -/
theorem c9_witness :
    0 ≤ (gui_paddedBounds 5 5 30 30 100 100).1 ∧
      (gui_paddedBounds 5 5 30 30 100 100).2.2.1 ≤ 100 :=
  ⟨(c9_pad_clamped 5 5 30 30 100 100 (by decide) (by decide) (by decide)
      (by decide) (by decide) (by decide)).1.1,
   (c9_pad_clamped 5 5 30 30 100 100 (by decide) (by decide) (by decide)
      (by decide) (by decide) (by decide)).1.2.2.1⟩

/-- Claim C10, confirmed for both cited variants: removing the colours
whose value lists are empty leaves the formatted lines unchanged — an
empty colour contributes no block at all (no header, no values line,
no zero total), even when other colours do contribute. -/
theorem c10_empty_colors_omitted (cv : List (String × List Nat)) :
    Gui.format_color_results_lines (cv.filter (fun p => !p.2.isEmpty)) =
      Gui.format_color_results_lines cv ∧
    V2.format_color_results_lines (cv.filter (fun p => !p.2.isEmpty)) =
      V2.format_color_results_lines cv := by
  have hsort : sortByName (cv.filter (fun p => !p.2.isEmpty)) =
      (sortByName cv).filter (fun p => !p.2.isEmpty) := by
    unfold sortByName
    exact (filter_insertionSort (r := byName) (fun p => !p.2.isEmpty) cv).symm
  have hcore : (sortByName (cv.filter (fun p => !p.2.isEmpty))).filter
        (fun p => !p.2.isEmpty) =
      (sortByName cv).filter (fun p => !p.2.isEmpty) := by
    rw [hsort, List.filter_filter]
    simp
  constructor
  · rw [gui_lines_eq, gui_lines_eq, hcore]
  · rw [v2_lines_eq, v2_lines_eq, hcore]

end FigJam
